import Mathlib

/-!
Verification development for the mediax orchestration engine.

The definitions below are a shallow embedding of the TypeScript sources:
packages/core/src/job.ts (spawn-based Job), packages/core/src/index.ts
(JobQueue scheduler), the fluent-ffmpeg Job variant, and the Pipeline
(workflow sequencer).  JavaScript numbers are modelled as Int (argument
building) or Rat (progress arithmetic); nullable fields as Option;
string falsiness (undefined or the empty string) by falsyS.
-/

namespace MediaX

/-! ## Data model (types.ts) -/

/-- The fixed set of operation kinds, JobType in types.ts. -/
inductive JobType
  | convert | compress | thumbnail | metadata
  | extractAudio | replaceAudio | toGif | clip
  | concat | watermark | frames
deriving DecidableEq, Repr

/-- JobOptions from types.ts.  Optional fields are Option; numeric
parameters are modelled as Int (all defaults in the source are integers). -/
structure JobOptions where
  type : JobType
  input : String
  output : Option String := none
  format : Option String := none
  bitrate : Option String := none
  time : Option String := none
  codec : Option String := none
  audio : Option String := none
  start : Option Int := none
  duration : Option Int := none
  watermark : Option String := none
  x : Option Int := none
  y : Option Int := none
  fps : Option Int := none
deriving DecidableEq, Repr

/-- JavaScript falsiness of a possibly-undefined string: undefined and the
empty string are falsy, every other string is truthy. -/
def falsyS : Option String → Bool
  | none => true
  | some s => s.isEmpty

/-- JavaScript template interpolation of a possibly-undefined number:
an undefined value prints as the string undefined. -/
def jsShowInt : Option Int → String
  | some v => toString v
  | none => "undefined"

/-! ## Job.withDefaults and Job.buildArgs (job.ts) -/

/-- Job.withDefaults from job.ts: the nullish-coalescing defaults applied to
the options in the Job constructor.  Note that the ?? operator replaces only
undefined/null, never the empty string. -/
def withDefaults (o : JobOptions) : JobOptions :=
  { o with
    output := some (o.output.getD "output.mp4")
    bitrate := some (o.bitrate.getD "1000k")
    time := some (o.time.getD "00:00:01")
    codec := some (o.codec.getD "aac")
    start := some (o.start.getD 0)
    duration := some (o.duration.getD 5)
    fps := some (o.fps.getD 1)
    x := some (o.x.getD 10)
    y := some (o.y.getD 10) }

/-- Job.buildArgs from job.ts.  An error value models a thrown exception
(start() then fails before safeSpawn is reached); an ok value is the
argument list handed to safeSpawn.  The source's checks are JavaScript
truthiness tests, hence falsyS.  The non-null assertions (o.bitrate! and
friends) are modelled with getD. -/
def buildArgs (o : JobOptions) : Except String (List String) :=
  match o.type with
  | .convert =>
    if falsyS o.output then .error "convert: missing output"
    else .ok ["-i", o.input, "-y", o.output.getD ""]
  | .compress =>
    if falsyS o.output then .error "compress: missing output"
    else .ok ["-i", o.input, "-b:v", o.bitrate.getD "", "-y", o.output.getD ""]
  | .thumbnail =>
    if falsyS o.output then .error "thumbnail: missing output"
    else .ok ["-ss", o.time.getD "", "-i", o.input, "-vframes", "1", "-y", o.output.getD ""]
  | .metadata =>
    .ok ["-i", o.input, "-f", "ffmetadata", "-"]
  | .extractAudio =>
    if falsyS o.output then .error "extractAudio: missing output"
    else .ok ["-i", o.input, "-vn", "-acodec", o.codec.getD "", "-y", o.output.getD ""]
  | .replaceAudio =>
    if falsyS o.audio || falsyS o.output then .error "replaceAudio: missing audio/output"
    else .ok ["-i", o.input, "-i", o.audio.getD "", "-c:v", "copy", "-map", "0:v:0",
      "-map", "1:a:0", "-y", o.output.getD ""]
  | .toGif =>
    if falsyS o.output then .error "toGif: missing output"
    else .ok ["-ss", jsShowInt o.start, "-t", jsShowInt o.duration, "-i", o.input,
      "-vf", "fps=10,scale=320:-1:flags=lanczos", "-y", o.output.getD ""]
  | .clip =>
    if falsyS o.output then .error "clip: missing output"
    else .ok ["-ss", jsShowInt o.start, "-t", jsShowInt o.duration, "-i", o.input,
      "-c", "copy", "-y", o.output.getD ""]
  | .concat =>
    if falsyS o.output then .error "concat: missing output"
    else .ok ["-i", "concat:" ++ o.input, "-c", "copy", "-y", o.output.getD ""]
  | .watermark =>
    if falsyS o.watermark || falsyS o.output then .error "watermark: missing watermark/output"
    else .ok ["-i", o.input, "-i", o.watermark.getD "", "-filter_complex",
      "overlay=" ++ jsShowInt o.x ++ ":" ++ jsShowInt o.y, "-y", o.output.getD ""]
  | .frames =>
    if falsyS o.output then .error "frames: missing output pattern"
    else .ok (["-i", o.input] ++
      (match o.fps with
       | some f => if f ≠ 0 then ["-vf", "fps=" ++ toString f] else []
       | none => []) ++
      ["-y", o.output.getD ""])

/-- Job.start() up to the spawn point: the constructor stored
withDefaults(opts), and start() calls buildArgs on it.  An ok result means
safeSpawn is reached with those arguments; an error models the thrown
exception that prevents any process from being spawned. -/
def startSpawns (o : JobOptions) : Except String (List String) :=
  buildArgs (withDefaults o)

/-! ## Claim C1 -/

/-- C1 counterexample: a convert spec (a kind that requires an output) with an
absent output does NOT make start() fail.  withDefaults fills the output with
"output.mp4", buildArgs succeeds, and start() proceeds to spawn the process
with those arguments. -/
theorem convert_absent_output_still_spawns :
    startSpawns { type := JobType.convert, input := "in.mp4" } =
      Except.ok ["-i", "in.mp4", "-y", "output.mp4"] ∧
    JobType.convert ≠ JobType.metadata := by
  constructor
  · rfl
  · decide

/-- C1 amended: for every OperationSpec whose output field is absent, start()
does not fail because of the absent output: the constructor defaults it to
"output.mp4" and buildArgs returns an argument list, so a process is spawned.
The only pre-spawn failures left are a replaceAudio spec with a falsy audio
path and a watermark spec with a falsy watermark path. -/
theorem start_spawns_despite_absent_output (o : JobOptions)
    (hout : o.output = none)
    (haud : o.type = JobType.replaceAudio → falsyS o.audio = false)
    (hwm : o.type = JobType.watermark → falsyS o.watermark = false) :
    (withDefaults o).output = some "output.mp4" ∧
    ∃ args, startSpawns o = Except.ok args := by
  refine ⟨by simp [withDefaults, hout], ?_⟩
  unfold startSpawns buildArgs
  cases htype : o.type <;>
    simp only [withDefaults, htype, hout, Option.getD_none, Option.getD_some]
  case metadata => exact ⟨_, rfl⟩
  case replaceAudio => exact ⟨_, by rw [if_neg (by simp +decide [haud htype])]⟩
  case watermark => exact ⟨_, by rw [if_neg (by simp +decide [hwm htype])]⟩
  all_goals exact ⟨_, by rw [if_neg (by decide)]⟩

/-- C1 amended witness: the amended theorem applied to the concrete convert
spec with absent output. -/
theorem start_spawns_despite_absent_output_witness :
    (withDefaults { type := JobType.convert, input := "clip.mp4" }).output = some "output.mp4" ∧
    ∃ args, startSpawns { type := JobType.convert, input := "clip.mp4" } = Except.ok args :=
  start_spawns_despite_absent_output { type := JobType.convert, input := "clip.mp4" }
    rfl (by decide) (by decide)

/-! ## Job state machine (job.ts) -/

/-- JobState from types.ts. -/
inductive JobState
  | queued | running | done | error | cancelled
deriving DecidableEq, Repr

/-- A state is terminal when it is done, error or cancelled. -/
def isTerminal : JobState → Bool
  | .done | .error | .cancelled => true
  | _ => false

/-- Events delivered to a Job after start() has spawned the process:
the close event of the process (with its exit code; none models a
signal-killed process whose code is null), a call to cancel(reason), and
the error event of the process handle. -/
inductive JobEvent
  | close (code : Option Int)
  | cancelCall (reason : String)
  | procError
deriving DecidableEq, Repr

/-- Notifications a Job emits. -/
inductive JobEmit
  | stateEv (s : JobState)
  | errorEv (msg : String)
deriving DecidableEq, Repr

/-- Job.cancel(reason) from job.ts: effective only when a process handle
exists and the state is running; it then kills the process, sets the state
to cancelled and emits a state event plus an error notification.  Otherwise
it does nothing.  (A process handle exists whenever the state is running:
start() is the only path to running and it sets this.proc.) -/
def cancelModel (procPresent : Bool) (reason : String) (s : JobState) :
    JobState × List JobEmit :=
  if procPresent && (s == JobState.running) then
    (JobState.cancelled,
      [JobEmit.stateEv JobState.cancelled, JobEmit.errorEv ("Job " ++ reason)])
  else (s, [])

/-- The state transition of one event, read off the handlers installed by
Job.start() and the cancel method of job.ts: the close handler sets done on
exit code 0 and otherwise fails unless the state is already cancelled; the
process error handler always fails; cancel transitions only out of running. -/
def jobStep (s : JobState) : JobEvent → JobState
  | .close code =>
    if code = some 0 then JobState.done
    else if s ≠ JobState.cancelled then JobState.error else s
  | .cancelCall reason => (cancelModel true reason s).1
  | .procError => JobState.error

/-! ## Claim C8 -/

/-- C8 counterexample: from the terminal state cancelled, a process close
event with exit code 0 transitions the unit to done — a transition out of a
terminal state (the race where the process exits with code 0 and cancel()
runs before the queued close event is handled). -/
theorem terminal_state_escapes :
    jobStep JobState.cancelled (JobEvent.close (some 0)) = JobState.done ∧
    isTerminal JobState.cancelled = true ∧
    JobState.done ≠ JobState.cancelled := by
  decide

/-- Rank of a state along the lifecycle: queued before running before the
terminal states. -/
def stateRank : JobState → ℕ
  | .queued => 0
  | .running => 1
  | _ => 2

/-- C8 amended: the state machine never moves backward along
queued → running → terminal (the rank never decreases), and a terminal state
is preserved by every event except the two escapes the code allows: a close
event with exit code 0 always sets done, a process error event always sets
error, and a close event with a nonzero (or null) code sets error unless the
state is cancelled.  Cancellation never changes a terminal state. -/
theorem job_state_monotone_amended :
    (∀ (s : JobState) (e : JobEvent), stateRank s ≤ stateRank (jobStep s e)) ∧
    (∀ s : JobState, isTerminal s = true →
      (∀ r : String, jobStep s (JobEvent.cancelCall r) = s) ∧
      jobStep s (JobEvent.close (some 0)) = JobState.done ∧
      jobStep s JobEvent.procError = JobState.error ∧
      (∀ c : Option Int, c ≠ some 0 →
        jobStep s (JobEvent.close c) =
          if s = JobState.cancelled then JobState.cancelled else JobState.error)) := by
  constructor
  · intro s e
    cases e with
    | close code =>
      by_cases h0 : code = some 0 <;> cases s <;>
        simp [jobStep, stateRank, h0]
    | cancelCall r => cases s <;> simp [jobStep, cancelModel, stateRank]
    | procError => cases s <;> simp [jobStep, stateRank]
  · intro s hs
    refine ⟨?_, ?_, ?_, ?_⟩
    · intro r; cases s <;> simp_all [jobStep, cancelModel, isTerminal]
    · simp [jobStep]
    · simp [jobStep]
    · intro c hc; cases s <;> simp_all [jobStep, isTerminal]

/-- C8 amended witness: the amended theorem applied at concrete states and
events. -/
theorem job_state_monotone_amended_witness :
    stateRank JobState.running ≤
      stateRank (jobStep JobState.running (JobEvent.close (some 1))) ∧
    jobStep JobState.done (JobEvent.cancelCall "timeout") = JobState.done :=
  ⟨job_state_monotone_amended.1 JobState.running (JobEvent.close (some 1)),
   (job_state_monotone_amended.2 JobState.done (by decide)).1 "timeout"⟩

/-! ## Claim C9 -/

/-- C9: cancelling a unit already in a terminal state is a no-op: the state
is unchanged and no notification is emitted (the guard in Job.cancel requires
the state to be running). -/
theorem cancel_terminal_noop (procPresent : Bool) (reason : String)
    (s : JobState) (hs : isTerminal s = true) :
    cancelModel procPresent reason s = (s, []) := by
  cases s <;> simp_all [cancelModel, isTerminal]

/-- C9 witness: cancelling a done unit changes nothing and emits nothing. -/
theorem cancel_terminal_noop_witness :
    cancelModel true "cancelled" JobState.done = (JobState.done, []) :=
  cancel_terminal_noop true "cancelled" JobState.done (by decide)

/-! ## Progress parsing (job.ts parseProgress and the fluent Job handler)

The four stderr patterns of parseProgress are simple enough that their
regexes are embedded directly: each scans for the first position where the
literal, optional whitespace and a non-empty capture of the given character
class (followed, for the bitrate pattern, by a closing literal) all match. -/

/-- Math.min on rationals (the NaN case never arises in the modelled runs). -/
def jsMin (a b : ℚ) : ℚ := if a ≤ b then a else b

/-- Math.max on rationals. -/
def jsMax (a b : ℚ) : ℚ := if a ≤ b then b else a

/-- Strip a literal from the front of a character list, or fail. -/
def stripLit : List Char → List Char → Option (List Char)
  | [], cs => some cs
  | _ :: _, [] => none
  | p :: ps, c :: cs => if c = p then stripLit ps cs else none

/-- Digit value of a digit string (the capture of a pattern). -/
def digitsVal (cs : List Char) : ℕ :=
  cs.foldl (fun a c => a * 10 + (c.toNat - 48)) 0

/-- Character class of the fps and bitrate captures: digits and a dot. -/
def digitOrDot (c : Char) : Bool := c.isDigit || c = '.'

/-- Character class of the timecode capture: digits, colon and dot. -/
def timeChar (c : Char) : Bool := c.isDigit || c = ':' || c = '.'

/-- Scan for the first match of: literal, optional whitespace, a non-empty
capture of the class cls; return the capture.  Mirrors a regex search of
lit backslash-s-star followed by a one-or-more capture of cls. -/
def scanCapture (lit : List Char) (cls : Char → Bool) : List Char → Option (List Char)
  | [] => none
  | c :: cs =>
    match stripLit lit (c :: cs) with
    | some rest =>
      let cap := (rest.dropWhile Char.isWhitespace).takeWhile cls
      if cap.isEmpty then scanCapture lit cls cs else some cap
    | none => scanCapture lit cls cs

/-- Like scanCapture but the capture must be followed by the literal post
(the kbits/s suffix of the bitrate pattern; the class excludes the letter k,
so the greedy capture is exact). -/
def scanCaptureThen (lit : List Char) (cls : Char → Bool) (post : List Char) :
    List Char → Option (List Char)
  | [] => none
  | c :: cs =>
    match stripLit lit (c :: cs) with
    | some rest =>
      let body := rest.dropWhile Char.isWhitespace
      let cap := body.takeWhile cls
      if cap.isEmpty then scanCaptureThen lit cls post cs
      else
        match stripLit post (body.dropWhile cls) with
        | some _ => some cap
        | none => scanCaptureThen lit cls post cs
    | none => scanCaptureThen lit cls post cs

/-- JavaScript parseFloat on a string: parse the longest numeric prefix
(digits, optionally a dot and more digits); none models NaN (no numeric
prefix).  Signs and exponents are not used by any diagnostic line. -/
def jsParseFloat (s : String) : Option ℚ :=
  let cs := s.toList.dropWhile Char.isWhitespace
  let intPart := cs.takeWhile Char.isDigit
  match cs.dropWhile Char.isDigit with
  | '.' :: frac =>
    let fracD := frac.takeWhile Char.isDigit
    if intPart.isEmpty && fracD.isEmpty then none
    else some ((digitsVal intPart : ℚ) + (digitsVal fracD : ℚ) / 10 ^ fracD.length)
  | _ => if intPart.isEmpty then none else some (digitsVal intPart : ℚ)

/-- Split a character list at every colon (the semantics of
String.prototype.split applied with a colon separator). -/
def splitCols : List Char → List (List Char)
  | [] => [[]]
  | c :: cs =>
    let r := splitCols cs
    if c = ':' then [] :: r
    else
      match r with
      | h :: t => (c :: h) :: t
      | [] => [[c]]

/-- JavaScript Number() applied to a whole string: the empty (or blank)
string is 0, otherwise the whole string must be a decimal number; none
models NaN. -/
def jsNumberChars (cs0 : List Char) : Option ℚ :=
  let cs := ((cs0.dropWhile Char.isWhitespace).reverse.dropWhile Char.isWhitespace).reverse
  if cs.isEmpty then some 0
  else
    let intPart := cs.takeWhile Char.isDigit
    match cs.dropWhile Char.isDigit with
    | ['.'] => if intPart.isEmpty then none else some (digitsVal intPart : ℚ)
    | '.' :: frac =>
      if frac.all Char.isDigit && !(intPart.isEmpty && frac.isEmpty) then
        some ((digitsVal intPart : ℚ) + (digitsVal frac : ℚ) / 10 ^ frac.length)
      else none
    | [] => some (digitsVal intPart : ℚ)
    | _ => none

/-- The timecode-to-seconds conversion inside job.ts parseProgress:
split on the colon, convert the first two fields with unary plus (Number)
and the third with parseFloat; none models a NaN result (missing fields or
non-numeric text). -/
def timeToSecondsSpawn (t : String) : Option ℚ :=
  match splitCols t.toList with
  | hh :: mm :: ss :: _ =>
    match jsNumberChars hh, jsNumberChars mm, jsParseFloat (String.mk ss) with
    | some h, some m, some s => some (h * 3600 + m * 60 + s)
    | _, _, _ => none
  | _ => none

/-- ProgressInfo from types.ts. -/
structure ProgressInfo where
  frames : ℕ
  currentFps : ℚ
  currentKbps : ℚ
  time : Option String
  percent : ℚ
deriving DecidableEq, Repr

/-- The spawn-based Job never assigns its durationSec field on any code
path of job.ts; it stays undefined for the whole run. -/
def jobDurationSec : Option ℚ := none

/-- Job.parseProgress from job.ts, applied to one stderr line.  none models
the null return (no pattern matched; the stderr handler then emits nothing);
some info models the emitted progress notification.  Percent is computed
only when a duration estimate and a timecode are both truthy; with an
undefined duration it is left 0.  (In the dead branch, a NaN timecode value
is modelled as 0; it is unreachable because durationSec is never assigned.) -/
def parseProgress (durationSec : Option ℚ) (line : String) : Option ProgressInfo :=
  let cs := line.toList
  let frame := scanCapture ("frame=".toList) Char.isDigit cs
  let fps := scanCapture ("fps=".toList) digitOrDot cs
  let kbps := scanCaptureThen ("bitrate=".toList) digitOrDot ("kbits/s".toList) cs
  let time := scanCapture ("time=".toList) timeChar cs
  if frame.isNone && fps.isNone && kbps.isNone && time.isNone then none
  else
    let percent : ℚ :=
      match durationSec, time with
      | some d, some t =>
        if d = 0 then 0
        else
          match timeToSecondsSpawn (String.mk t) with
          | some cur => jsMax 0 (jsMin 100 (cur / d * 100))
          | none => 0
      | _, _ => 0
    some
      { frames := (frame.map digitsVal).getD 0
        currentFps := ((fps.bind fun c => jsParseFloat (String.mk c))).getD 0
        currentKbps := ((kbps.bind fun c => jsParseFloat (String.mk c))).getD 0
        time := time.map String.mk
        percent := percent }

/-! ## Claim C10 -/

/-- C10: since durationSec is never assigned in job.ts, every emitted
progress notification carries percent = 0, whatever the line and its
timecode say. -/
theorem spawn_progress_percent_zero (line : String) (info : ProgressInfo)
    (h : parseProgress jobDurationSec line = some info) : info.percent = 0 := by
  unfold parseProgress jobDurationSec at h
  dsimp only at h
  split at h
  · exact absurd h (by simp)
  · cases h
    rfl

/-- C10 witness: a typical stderr line with a timecode still parses to a
notification whose percent is 0. -/
theorem spawn_progress_percent_zero_witness :
    parseProgress jobDurationSec "frame=  240 time=00:00:08.00 x" =
      some { frames := 240, currentFps := 0, currentKbps := 0,
             time := some "00:00:08.00", percent := 0 } ∧
    ({ frames := 240, currentFps := 0, currentKbps := 0,
       time := some "00:00:08.00", percent := 0 } : ProgressInfo).percent = 0 :=
  ⟨by decide, spawn_progress_percent_zero "frame=  240 time=00:00:08.00 x" _ (by decide)⟩

/-! ## The fluent-ffmpeg Job variant: progress throttling -/

/-- parseTimeToSeconds of the fluent Job variant: split on the colon, map
Number over the parts, and return 0 when any of the first three parts is
NaN (including the case of fewer than three parts, whose missing fields are
undefined and hence NaN). -/
def parseTimeToSecondsFl (time : String) : ℚ :=
  match (splitCols time.toList).map jsNumberChars with
  | some h :: some m :: some s :: _ => h * 3600 + m * 60 + s
  | _ => 0

/-- Number(x.toFixed(2)): round to two decimal places (ties round up, as
specified for toFixed). -/
def toFixed2 (q : ℚ) : ℚ := (⌊q * 100 + 1 / 2⌋ : ℚ) / 100

/-- The progress handler installed by the fluent Job variant's start():
given the probed durationSeconds, the unit's lastPercent and the event's
timemark, it returns the emitted percent (none when nothing is emitted) and
the updated lastPercent.  It returns early when the duration or the
timemark is falsy, and emits only when the computed percent has advanced by
at least 1 since lastPercent. -/
def fluentProgressStep (durationSeconds lastPercent : ℚ) (timemark : Option String) :
    Option ℚ × ℚ :=
  if durationSeconds = 0 || falsyS timemark then (none, lastPercent)
  else
    let t := timemark.getD ""
    let currentPercent := jsMin (parseTimeToSecondsFl t / durationSeconds * 100) 100
    if 1 ≤ currentPercent - lastPercent then (some (toFixed2 currentPercent), currentPercent)
    else (none, lastPercent)

/-! ## Claim C2 -/

/-- C2 counterexample: the spawn-based Job's stderr handler emits a progress
sample for a line matching the frame pattern even though the duration
estimate is undefined (it is never assigned) — and it would do so again,
unthrottled, for every further such line, with percent stuck at 0.  So a
sample is emitted with no duration estimate available and with zero advance
over the previously emitted percent. -/
theorem spawn_emits_without_duration :
    jobDurationSec = none ∧
    parseProgress jobDurationSec "frame= 240" =
      some { frames := 240, currentFps := 0, currentKbps := 0,
             time := none, percent := 0 } := by
  constructor
  · rfl
  · decide

/-- C2 amended: the one-percent throttle holds for the fluent-ffmpeg Job
variant, not for the spawn-based Job (which emits a sample for every line
matching any pattern, with percent 0 and no duration estimate).  For the
fluent variant: whenever the handler emits, the duration estimate is
available (nonzero), a timemark is present, and the computed percent has
advanced by at least one whole point over lastPercent; the new lastPercent
is the computed percent and the emitted value is its two-decimal rounding. -/
theorem fluent_progress_throttle (d last : ℚ) (tm : Option String)
    (out newLast : ℚ)
    (h : fluentProgressStep d last tm = (some out, newLast)) :
    d ≠ 0 ∧ falsyS tm = false ∧
    newLast = jsMin (parseTimeToSecondsFl (tm.getD "") / d * 100) 100 ∧
    1 ≤ newLast - last ∧ out = toFixed2 newLast := by
  unfold fluentProgressStep at h
  by_cases hd : d = 0
  · simp [hd] at h
  · by_cases hf : falsyS tm = true
    · simp [hd, hf] at h
    · rw [if_neg (by simp [hd, hf])] at h
      dsimp only at h
      split at h
      next hge =>
        rw [Prod.mk.injEq] at h
        obtain ⟨h1, h2⟩ := h
        refine ⟨hd, by simpa using hf, h2.symm, h2 ▸ hge, ?_⟩
        rw [← h2]
        exact (Option.some.inj h1).symm
      next => exact absurd h (by simp)

/-- Concrete evaluation of the fluent progress handler at duration 100s,
lastPercent 0 and timemark 50s. -/
theorem fluentProgressStep_eval :
    fluentProgressStep 100 0 (some "00:00:50") = (some 50, 50) := by
  have hp : parseTimeToSecondsFl "00:00:50" = 50 := by
    have hs : (splitCols ("00:00:50".toList)).map jsNumberChars
        = [some 0, some 0, some (50 : ℚ)] := by decide
    unfold parseTimeToSecondsFl
    rw [hs]
    norm_num
  unfold fluentProgressStep
  rw [if_neg (by decide)]
  simp only [Option.getD_some]
  rw [hp]
  norm_num [jsMin, toFixed2]

/-- C2 amended witness: a concrete emission of the fluent handler, with
duration 100s, lastPercent 0 and timemark 50s: percent 50 is emitted and
becomes the new lastPercent. -/
theorem fluent_progress_throttle_witness :
    (100 : ℚ) ≠ 0 ∧ falsyS (some "00:00:50") = false ∧
    (50 : ℚ) = jsMin (parseTimeToSecondsFl ((some "00:00:50").getD "") / 100 * 100) 100 ∧
    (1 : ℚ) ≤ 50 - 0 ∧ (50 : ℚ) = toFixed2 50 :=
  fluent_progress_throttle 100 0 (some "00:00:50") 50 50 fluentProgressStep_eval

/-! ## The JobQueue scheduler (index.ts)

The scheduler is modelled as a state machine driven by the events its
handlers react to: add(job), a running job's done notification, a running
job's error notification, pause, resume and cancel(id).  Each event handler
runs to completion before the next event is handled (single-threaded event
loop), so one event is one step.  The backoff delay inside the error handler
does not change any counts before the handler resumes, so the handler is one
atomic step here as well. -/

/-- An entry of the scheduler's backlog: a job (identified by a number) and
its retry counter. -/
structure QEntry where
  jobId : ℕ
  tries : ℕ
deriving DecidableEq, Repr

/-- The scheduler's configuration (QueueOptions with its defaults). -/
structure QueueConfig where
  concurrency : ℕ := 2
  maxRetries : ℕ := 0
  backoffMs : ℕ := 0
deriving DecidableEq, Repr

/-- The scheduler's mutable state: the backlog q, the currently running
entries (whose length is the running counter of the source), the stopped
flag, and a ghost counter of how many times runEntry has called job.start(). -/
structure QueueState where
  q : List QEntry
  runningJobs : List QEntry
  stopped : Bool
  starts : ℕ
deriving DecidableEq, Repr

/-- The scheduler's initial state. -/
def initQueueState : QueueState := ⟨[], [], false, 0⟩

/-- The admission loop body of JobQueue.tick: while running < concurrency
and the backlog is non-empty, shift the oldest entry and launch it
(runEntry increments running and calls job.start()). -/
def tickLoop (c : ℕ) : List QEntry → List QEntry → ℕ → List QEntry × List QEntry × ℕ
  | [], run, starts => ([], run, starts)
  | e :: rest, run, starts =>
    if run.length < c then tickLoop c rest (run ++ [e]) (starts + 1)
    else (e :: rest, run, starts)

/-- JobQueue.tick: a no-op while stopped, otherwise the admission loop. -/
def tick (cfg : QueueConfig) (st : QueueState) : QueueState :=
  if st.stopped then st
  else
    let r := tickLoop cfg.concurrency st.q st.runningJobs st.starts
    { st with q := r.1, runningJobs := r.2.1, starts := r.2.2 }

/-- Remove the first occurrence of an entry from a list (the running entry
whose handler fired). -/
def removeEntry (e : QEntry) : List QEntry → List QEntry
  | [] => []
  | x :: xs => if x = e then xs else x :: removeEntry e xs

/-- Remove the first backlog entry with the given job id (the splice in
JobQueue.cancel). -/
def removeFirstById (id : ℕ) : List QEntry → List QEntry
  | [] => []
  | x :: xs => if x.jobId = id then xs else x :: removeFirstById id xs

/-- The retry branch of the error handler: if tries < maxRetries, increment
tries and unshift the entry to the FRONT of the backlog; otherwise the entry
is dropped. -/
def requeue (cfg : QueueConfig) (e : QEntry) (st : QueueState) : QueueState :=
  if e.tries < cfg.maxRetries then
    { st with q := ⟨e.jobId, e.tries + 1⟩ :: st.q }
  else st

/-- The events the scheduler reacts to. -/
inductive QEvent
  | add (id : ℕ)
  | jobDone (e : QEntry)
  | jobError (e : QEntry)
  | pause
  | resume
  | cancelId (id : ℕ)
deriving DecidableEq, Repr

/-- One scheduler step, read off the handlers of JobQueue (index.ts):
add pushes a fresh entry and ticks; a done notification removes the entry
from the running set and ticks; an error notification removes it, requeues
it at the front when retries remain, and ticks; pause sets the stopped flag;
resume clears it and ticks; cancel removes a backlog entry by id (a running
job only gets a best-effort signal, changing no scheduler state).  done and
error notifications can only come from entries that are actually running
(the once-handlers are installed by runEntry). -/
def queueStep (cfg : QueueConfig) (st : QueueState) : QEvent → QueueState
  | .add id => tick cfg { st with q := st.q ++ [⟨id, 0⟩] }
  | .jobDone e =>
    if e ∈ st.runningJobs then
      tick cfg { st with runningJobs := removeEntry e st.runningJobs }
    else st
  | .jobError e =>
    if e ∈ st.runningJobs then
      tick cfg (requeue cfg e { st with runningJobs := removeEntry e st.runningJobs })
    else st
  | .pause => { st with stopped := true }
  | .resume => tick cfg { st with stopped := false }
  | .cancelId id => { st with q := removeFirstById id st.q }

/-! ## Claim C3 -/

/-- tickLoop never grows the running set beyond the concurrency limit. -/
theorem tickLoop_le (c : ℕ) :
    ∀ (q run : List QEntry) (s : ℕ), run.length ≤ c →
      (tickLoop c q run s).2.1.length ≤ c := by
  intro q
  induction q with
  | nil => intro run s h; simpa [tickLoop] using h
  | cons e rest ih =>
    intro run s h
    unfold tickLoop
    by_cases hlt : run.length < c
    · simpa [hlt] using ih (run ++ [e]) (s + 1) (by simpa using hlt)
    · simpa [hlt] using h

/-- tick preserves the concurrency bound. -/
theorem tick_le (cfg : QueueConfig) (st : QueueState)
    (h : st.runningJobs.length ≤ cfg.concurrency) :
    (tick cfg st).runningJobs.length ≤ cfg.concurrency := by
  unfold tick
  by_cases hs : st.stopped
  · simpa [hs] using h
  · simpa [hs] using tickLoop_le cfg.concurrency st.q st.runningJobs st.starts h

/-- Removing an entry can only shrink the running set. -/
theorem removeEntry_length_le (e : QEntry) :
    ∀ l : List QEntry, (removeEntry e l).length ≤ l.length := by
  intro l
  induction l with
  | nil => simp [removeEntry]
  | cons x xs ih =>
    unfold removeEntry
    by_cases hx : x = e
    · rw [if_pos hx]
      simp
    · rw [if_neg hx]
      simp only [List.length_cons]
      omega

/-- Every single scheduler step preserves the concurrency bound. -/
theorem queueStep_le (cfg : QueueConfig) (st : QueueState) (ev : QEvent)
    (h : st.runningJobs.length ≤ cfg.concurrency) :
    (queueStep cfg st ev).runningJobs.length ≤ cfg.concurrency := by
  cases ev with
  | add id => exact tick_le cfg _ h
  | jobDone e =>
    unfold queueStep
    by_cases he : e ∈ st.runningJobs
    · simp only [he, if_true]
      exact tick_le cfg _ (le_trans (removeEntry_length_le e st.runningJobs) h)
    · simpa [he] using h
  | jobError e =>
    unfold queueStep
    by_cases he : e ∈ st.runningJobs
    · simp only [he, if_true]
      refine tick_le cfg _ ?_
      unfold requeue
      by_cases hr : e.tries < cfg.maxRetries <;>
        simpa [hr] using le_trans (removeEntry_length_le e st.runningJobs) h
    · simpa [he] using h
  | pause => simpa [queueStep] using h
  | resume => exact tick_le cfg _ (by simpa using h)
  | cancelId id => simpa [queueStep] using h

/-- C3: for every configuration and every sequence of scheduler events
starting from the initial state, the number of concurrently running units
never exceeds the configured concurrency limit.  Every prefix of an event
sequence is itself an event sequence, so this bounds the count at every
observed instant. -/
theorem scheduler_concurrency_bound (cfg : QueueConfig) (evs : List QEvent) :
    (evs.foldl (queueStep cfg) initQueueState).runningJobs.length ≤ cfg.concurrency := by
  suffices h : ∀ st : QueueState, st.runningJobs.length ≤ cfg.concurrency →
      (evs.foldl (queueStep cfg) st).runningJobs.length ≤ cfg.concurrency by
    exact h initQueueState (by simp [initQueueState])
  induction evs with
  | nil => intro st h; simpa using h
  | cons ev rest ih =>
    intro st h
    exact ih (queueStep cfg st ev) (queueStep_le cfg st ev h)

/-! ## Claim C4 -/

/-- C4: with maxRetries = 2 and any concurrency of at least 1, a unit whose
every run ends in an error notification is started exactly 3 times in total
and the entry is then dropped (empty backlog, nothing running); moreover
every retried entry is pushed back to the FRONT of the backlog. -/
theorem scheduler_retries_three_times (c b id : ℕ) (hc : 1 ≤ c) :
    (([QEvent.add id, QEvent.jobError ⟨id, 0⟩, QEvent.jobError ⟨id, 1⟩,
        QEvent.jobError ⟨id, 2⟩].foldl
          (queueStep { concurrency := c, maxRetries := 2, backoffMs := b })
          initQueueState) =
        { q := [], runningJobs := [], stopped := false, starts := 3 }) ∧
    (∀ (st : QueueState) (e : QEntry), e.tries < 2 →
      (requeue { concurrency := c, maxRetries := 2, backoffMs := b } e st).q =
        ⟨e.jobId, e.tries + 1⟩ :: st.q) := by
  constructor
  · have h0 : 0 < c := hc
    simp [initQueueState, queueStep, tick, tickLoop, requeue, removeEntry,
      removeFirstById, h0]
  · intro st e he
    simp [requeue, he]

/-- C4 witness: the default concurrency 2 with job id 0 and no backoff. -/
theorem scheduler_retries_three_times_witness :
    (([QEvent.add 0, QEvent.jobError ⟨0, 0⟩, QEvent.jobError ⟨0, 1⟩,
        QEvent.jobError ⟨0, 2⟩].foldl
          (queueStep { concurrency := 2, maxRetries := 2, backoffMs := 0 })
          initQueueState) =
        { q := [], runningJobs := [], stopped := false, starts := 3 }) ∧
    (∀ (st : QueueState) (e : QEntry), e.tries < 2 →
      (requeue { concurrency := 2, maxRetries := 2, backoffMs := 0 } e st).q =
        ⟨e.jobId, e.tries + 1⟩ :: st.q) :=
  scheduler_retries_three_times 2 0 0 (by decide)

/-! ## The Pipeline (workflow sequencer)

The Pipeline's steps are JobOptions records (interface PipelineStep extends
JobOptions).  Filesystem facts and the timestamp-based default output
generator are parameters of the model. -/

/-- The filesystem facts the Pipeline's validation consults. -/
structure FsModel where
  fsExists : String → Bool
  fsReadable : String → Bool
  dirExists : String → Bool
  mkdirOk : String → Bool
  dirname : String → String

/-- A MediaXError as far as the model needs it: message and code.  All
errors thrown by validatePipeline are MediaXValidationError instances,
whose code is VALIDATION_ERROR. -/
structure MediaXErr where
  message : String
  code : String
deriving DecidableEq, Repr

/-- Build a MediaXValidationError. -/
def validationErr (msg : String) : MediaXErr := ⟨msg, "VALIDATION_ERROR"⟩

/-- parseTimeToSeconds of the Pipeline module: empty/falsy input is 0;
exactly three colon-separated parts are combined with Number (none models
the NaN that results when a part is not numeric: NaN propagates into the
percent and the ≥ comparison then fails); any other shape falls back to
parseFloat-or-0. -/
def parseTimeToSecondsP (time : String) : Option ℚ :=
  if time.isEmpty then some 0
  else
    match splitCols time.toList with
    | [h, m, s] =>
      match jsNumberChars h, jsNumberChars m, jsNumberChars s with
      | some hv, some mv, some sv => some (hv * 3600 + mv * 60 + sv)
      | _, _, _ => none
    | _ => some ((jsParseFloat time).getD 0)

/-- Pipeline.handleJobProgress: with the job's probed duration, the
progress event's timemark, the 0-based step index, the total step count,
the elapsed seconds and the lastPercent snapshot, it returns the emitted
workflow progress event (overall percent, 1-based current job, total, eta)
or none.  It returns early when duration or timemark is falsy; computes
currentPercent = min(timemark-seconds / duration * 100, 100); and emits
only when currentPercent - lastPercent >= 1, with
overall = ((index + currentPercent/100) / totalJobs) * 100 and
eta = elapsed / (currentPercent/100) - elapsed once currentPercent > 0.
Index and totalJobs are JavaScript numbers, hence rationals here. -/
def handleJobProgress (duration : ℚ) (timemark : Option String)
    (index totalJobs elapsed lastPercent : ℚ) : Option (ℚ × ℚ × ℚ × Option ℚ) :=
  if duration = 0 ∨ falsyS timemark = true then none
  else
    match parseTimeToSecondsP (timemark.getD "") with
    | none => none
    | some sec =>
      let currentPercent := jsMin (sec / duration * 100) 100
      if 1 ≤ currentPercent - lastPercent then
        some (((index + currentPercent / 100) / totalJobs) * 100,
          index + 1, totalJobs,
          if 0 < currentPercent then some (elapsed / (currentPercent / 100) - elapsed)
          else none)
      else none

/-! ## Claim C6 -/

/-- C6: whenever the Pipeline converts step progress into a workflow-level
progress event, the reported overall percent equals
((stepIndex + stepPercent/100) / totalSteps) * 100 where stepPercent is the
min-clamped percent computed from the timemark, the reported ETA equals
elapsed / (stepPercent/100) - elapsed (stepPercent is positive at every
emission since lastPercent starts at 0), and the job counters are
stepIndex + 1 of totalSteps. -/
theorem pipeline_progress_formula (d : ℚ) (tm : Option String)
    (i n e last overall cj tj : ℚ) (eta : Option ℚ)
    (hlast : 0 ≤ last)
    (h : handleJobProgress d tm i n e last = some (overall, cj, tj, eta)) :
    ∃ sec, parseTimeToSecondsP (tm.getD "") = some sec ∧
      overall = ((i + jsMin (sec / d * 100) 100 / 100) / n) * 100 ∧
      cj = i + 1 ∧ tj = n ∧ 0 < jsMin (sec / d * 100) 100 ∧
      eta = some (e / (jsMin (sec / d * 100) 100 / 100) - e) := by
  unfold handleJobProgress at h
  by_cases hcond : d = 0 ∨ falsyS tm = true
  · rw [if_pos hcond] at h
    exact absurd h (by simp)
  · rw [if_neg hcond] at h
    cases hsec : parseTimeToSecondsP (tm.getD "") with
    | none => rw [hsec] at h; exact absurd h (by simp)
    | some sec =>
      rw [hsec] at h
      dsimp only at h
      split at h
      next hge =>
        have hpos : 0 < jsMin (sec / d * 100) 100 := by linarith
        rw [if_pos hpos] at h
        rw [Option.some.injEq, Prod.mk.injEq, Prod.mk.injEq, Prod.mk.injEq] at h
        exact ⟨sec, rfl, h.1.symm, h.2.1.symm, h.2.2.1.symm, hpos, h.2.2.2.symm⟩
      next => exact absurd h (by simp)

/-- Concrete evaluation of handleJobProgress at step 2 of 3 (0-based index
1), duration 100s, timemark 50s, elapsed 10s, lastPercent 0: the overall
percent is exactly 50 and the eta is 10s. -/
theorem handleJobProgress_eval :
    handleJobProgress 100 (some "00:00:50") 1 3 10 0 = some (50, 2, 3, some 10) := by
  have hp : parseTimeToSecondsP "00:00:50" = some 50 := by
    have hs : splitCols ("00:00:50".toList) = [['0', '0'], ['0', '0'], ['5', '0']] := by
      decide
    have h0 : jsNumberChars ['0', '0'] = some 0 := by decide
    have h5 : jsNumberChars ['5', '0'] = some 50 := by decide
    unfold parseTimeToSecondsP
    rw [if_neg (by decide), hs]
    simp only [h0, h5]
    norm_num
  unfold handleJobProgress
  rw [if_neg (by decide)]
  simp only [Option.getD_some]
  rw [hp]
  norm_num [jsMin]

/-- C6 witness: the formula theorem applied at step 2 of 3 with 50% step
progress; the reported overall percent is 50.0. -/
theorem pipeline_progress_formula_witness :
    ∃ sec, parseTimeToSecondsP ((some "00:00:50").getD "") = some sec ∧
      (50 : ℚ) = ((1 + jsMin (sec / 100 * 100) 100 / 100) / 3) * 100 ∧
      (2 : ℚ) = 1 + 1 ∧ (3 : ℚ) = 3 ∧ 0 < jsMin (sec / 100 * 100) 100 ∧
      (some (10 : ℚ)) = some (10 / (jsMin (sec / 100 * 100) 100 / 100) - 10) :=
  pipeline_progress_formula 100 (some "00:00:50") 1 3 10 0 50 2 3 (some 10)
    (by norm_num) handleJobProgress_eval

/-! ## Claim C7: pre-flight validation of run() -/

/-- Pipeline.validateOutputPaths: walk the steps; a truthy output that was
already seen raises a duplicate-output validation error; otherwise the
output directory must exist or be creatable; falsy outputs are skipped.
The outputs accumulator models the Set of seen output paths. -/
def validateOutputPaths (fs : FsModel) : List JobOptions → List String → Option MediaXErr
  | [], _ => none
  | step :: rest, outputs =>
    match step.output with
    | some o =>
      if o.isEmpty then validateOutputPaths fs rest outputs
      else if o ∈ outputs then some (validationErr ("Duplicate output path: " ++ o))
      else
        if fs.dirExists (fs.dirname o) then validateOutputPaths fs rest (o :: outputs)
        else if fs.mkdirOk (fs.dirname o) then validateOutputPaths fs rest (o :: outputs)
        else some (validationErr ("Cannot create output directory: " ++ fs.dirname o))
    | none => validateOutputPaths fs rest outputs

/-- Pipeline.validatePipeline: the input must be set (non-blank), exist and
be readable, the step list non-empty; then the output paths are checked.
(validateStepSequence only emits non-fatal warnings and is omitted: it
cannot produce an error.)  none means validation passed. -/
def validatePipeline (fs : FsModel) (initialInput : String)
    (steps : List JobOptions) : Option MediaXErr :=
  if (initialInput.trim).isEmpty then some (validationErr "Pipeline input not set")
  else if !fs.fsExists initialInput then
    some (validationErr ("Input file does not exist: " ++ initialInput))
  else if steps.isEmpty then some (validationErr "Pipeline has no steps defined")
  else if !fs.fsReadable initialInput then
    some (validationErr ("Cannot read input file: " ++ initialInput))
  else validateOutputPaths fs steps []

/-- Pipeline.run up to the decision to execute: when already running, an
async PIPELINE_RUNNING error is emitted; when pre-flight validation throws,
the (enhanced) error is emitted and executePipeline is never invoked
(second component false); otherwise execution starts (second component
true).  enhanceError returns MediaXError instances unchanged, and every
validation failure is such an instance. -/
def pipelineRun (fs : FsModel) (isRunning : Bool) (initialInput : String)
    (steps : List JobOptions) : Option MediaXErr × Bool :=
  if isRunning then (some ⟨"Pipeline is already running", "PIPELINE_RUNNING"⟩, false)
  else
    match validatePipeline fs initialInput steps with
    | some e => (some e, false)
    | none => (none, true)

/-- If validateOutputPaths succeeds, then every truthy output among the
steps is absent from the seen set and distinct from every earlier truthy
output. -/
theorem validateOutputPaths_none_distinct (fs : FsModel) :
    ∀ (l : List JobOptions) (seen : List String),
      validateOutputPaths fs l seen = none →
      ∀ (j : ℕ) (sj : JobOptions) (o : String),
        l.get? j = some sj → sj.output = some o → o.isEmpty = false →
        o ∉ seen ∧ ∀ (i : ℕ) (si : JobOptions), i < j → l.get? i = some si →
          si.output ≠ some o := by
  intro l
  induction l with
  | nil => intro seen _ j sj o hj; simp at hj
  | cons head rest ih =>
    intro seen hnone j sj o hj ho hne
    unfold validateOutputPaths at hnone
    cases hhead : head.output with
    | none =>
      rw [hhead] at hnone
      cases j with
      | zero =>
        simp only [List.get?_cons_zero, Option.some.injEq] at hj
        rw [← hj, hhead] at ho
        exact absurd ho (by simp)
      | succ k =>
        have hrec := ih seen hnone k sj o (by simpa using hj) ho hne
        refine ⟨hrec.1, ?_⟩
        intro i si hi hgi
        cases i with
        | zero =>
          simp only [List.get?_cons_zero, Option.some.injEq] at hgi
          rw [← hgi, hhead]
          simp
        | succ m =>
          exact hrec.2 m si (by omega) (by simpa using hgi)
    | some o0 =>
      rw [hhead] at hnone
      dsimp only at hnone
      by_cases hoe : o0.isEmpty
      · rw [if_pos hoe] at hnone
        cases j with
        | zero =>
          simp only [List.get?_cons_zero, Option.some.injEq] at hj
          rw [← hj, hhead] at ho
          have : o = o0 := by
            have h2 : o0 = o := by simpa using ho
            exact h2.symm
          rw [this] at hne
          rw [hne] at hoe
          exact absurd hoe (by simp)
        | succ k =>
          have hrec := ih seen hnone k sj o (by simpa using hj) ho hne
          refine ⟨hrec.1, ?_⟩
          intro i si hi hgi
          cases i with
          | zero =>
            simp only [List.get?_cons_zero, Option.some.injEq] at hgi
            rw [← hgi, hhead]
            intro hcon
            have : o0 = o := by simpa using hcon
            rw [← this] at hne
            rw [hne] at hoe
            exact absurd hoe (by simp)
          | succ m =>
            exact hrec.2 m si (by omega) (by simpa using hgi)
      · rw [if_neg hoe] at hnone
        by_cases hmem : o0 ∈ seen
        · rw [if_pos hmem] at hnone
          exact absurd hnone (by simp)
        · rw [if_neg hmem] at hnone
          have hrest : validateOutputPaths fs rest (o0 :: seen) = none := by
            by_cases hde : fs.dirExists (fs.dirname o0)
            · rw [if_pos hde] at hnone; exact hnone
            · rw [if_neg hde] at hnone
              by_cases hmk : fs.mkdirOk (fs.dirname o0)
              · rw [if_pos hmk] at hnone; exact hnone
              · rw [if_neg hmk] at hnone; exact absurd hnone (by simp)
          cases j with
          | zero =>
            simp only [List.get?_cons_zero, Option.some.injEq] at hj
            rw [← hj, hhead] at ho
            have hoo : o = o0 := by
              have h2 : o0 = o := by simpa using ho
              exact h2.symm
            subst hoo
            exact ⟨hmem, by intro i si hi; omega⟩
          | succ k =>
            have hrec := ih (o0 :: seen) hrest k sj o (by simpa using hj) ho hne
            have hnotin : o ∉ seen ∧ o ≠ o0 := by
              have := hrec.1
              simp only [List.mem_cons] at this
              push_neg at this
              exact ⟨this.2, this.1⟩
            refine ⟨hnotin.1, ?_⟩
            intro i si hi hgi
            cases i with
            | zero =>
              simp only [List.get?_cons_zero, Option.some.injEq] at hgi
              rw [← hgi, hhead]
              intro hcon
              have : o0 = o := by simpa using hcon
              exact hnotin.2 this.symm
            | succ m =>
              exact hrec.2 m si (by omega) (by simpa using hgi)

/-- Every error produced by validateOutputPaths is a validation error. -/
theorem validateOutputPaths_code (fs : FsModel) :
    ∀ (l : List JobOptions) (seen : List String) (e : MediaXErr),
      validateOutputPaths fs l seen = some e → e.code = "VALIDATION_ERROR" := by
  intro l
  induction l with
  | nil => intro seen e h; simp [validateOutputPaths] at h
  | cons head rest ih =>
    intro seen e h
    unfold validateOutputPaths at h
    cases hhead : head.output with
    | none => rw [hhead] at h; exact ih seen e h
    | some o0 =>
      rw [hhead] at h
      dsimp only at h
      by_cases hoe : o0.isEmpty
      · rw [if_pos hoe] at h; exact ih seen e h
      · rw [if_neg hoe] at h
        by_cases hmem : o0 ∈ seen
        · rw [if_pos hmem] at h
          cases h
          rfl
        · rw [if_neg hmem] at h
          by_cases hde : fs.dirExists (fs.dirname o0)
          · rw [if_pos hde] at h; exact ih _ e h
          · rw [if_neg hde] at h
            by_cases hmk : fs.mkdirOk (fs.dirname o0)
            · rw [if_pos hmk] at h; exact ih _ e h
            · rw [if_neg hmk] at h
              cases h
              rfl

/-- Every error produced by validatePipeline is a validation error. -/
theorem validatePipeline_code (fs : FsModel) (input : String)
    (steps : List JobOptions) (e : MediaXErr)
    (h : validatePipeline fs input steps = some e) : e.code = "VALIDATION_ERROR" := by
  unfold validatePipeline at h
  split at h
  · cases h; rfl
  · split at h
    · cases h; rfl
    · split at h
      · cases h; rfl
      · split at h
        · cases h; rfl
        · exact validateOutputPaths_code fs steps [] e h

/-- C7: when two distinct steps of a workflow carry the same (non-empty)
output path, run() fails pre-flight validation — a validation error is
emitted — and executePipeline is never invoked, so no step executes. -/
theorem pipeline_duplicate_output_rejected (fs : FsModel) (init : String)
    (steps : List JobOptions) (i j : ℕ) (si sj : JobOptions) (o : String)
    (hij : i ≠ j) (hi : steps.get? i = some si) (hj : steps.get? j = some sj)
    (hoi : si.output = some o) (hoj : sj.output = some o)
    (hne : o.isEmpty = false) :
    (pipelineRun fs false init steps).2 = false ∧
    ∃ e, (pipelineRun fs false init steps).1 = some e ∧
      e.code = "VALIDATION_ERROR" := by
  have hval : ∀ hv : validatePipeline fs init steps = none, False := by
    intro hv
    have hvo : validateOutputPaths fs steps [] = none := by
      unfold validatePipeline at hv
      split at hv
      · exact absurd hv (by simp)
      · split at hv
        · exact absurd hv (by simp)
        · split at hv
          · exact absurd hv (by simp)
          · split at hv
            · exact absurd hv (by simp)
            · exact hv
    rcases Nat.lt_or_ge i j with hlt | hge
    · exact (validateOutputPaths_none_distinct fs steps [] hvo j sj o hj hoj hne).2
        i si hlt hi hoi
    · have hlt : j < i := by omega
      exact (validateOutputPaths_none_distinct fs steps [] hvo i si o hi hoi hne).2
        j sj hlt hj hoj
  unfold pipelineRun
  rw [if_neg (by simp)]
  cases hv : validatePipeline fs init steps with
  | none => exact absurd hv (fun hv => hval hv)
  | some e =>
    exact ⟨rfl, e, rfl, validatePipeline_code fs init steps e hv⟩

/-- The all-permissive filesystem used by concrete validation runs. -/
def fsAllOk : FsModel :=
  { fsExists := fun _ => true, fsReadable := fun _ => true,
    dirExists := fun _ => true, mkdirOk := fun _ => true,
    dirname := fun _ => "." }

/-- C7 witness: a concrete 2-step workflow (convert then thumbnail) whose
steps share the output path a.mp4 is rejected before any step executes. -/
theorem pipeline_duplicate_output_rejected_witness :
    (pipelineRun fsAllOk false "sample.mp4"
        [{ type := JobType.convert, input := "", output := some "a.mp4" },
         { type := JobType.thumbnail, input := "", output := some "a.mp4" }]).2 = false ∧
    ∃ e, (pipelineRun fsAllOk false "sample.mp4"
        [{ type := JobType.convert, input := "", output := some "a.mp4" },
         { type := JobType.thumbnail, input := "", output := some "a.mp4" }]).1 = some e ∧
      e.code = "VALIDATION_ERROR" :=
  pipeline_duplicate_output_rejected fsAllOk "sample.mp4" _ 0 1 _ _ "a.mp4"
    (by decide) rfl rfl rfl rfl (by decide)

/-! ## Claim C5: input wiring of executePipeline -/

/-- The operation kinds Pipeline classifies as producing playable media
(VIDEO_OPERATIONS in the source). -/
def VIDEO_OPERATIONS : List JobType :=
  [.convert, .compress, .clip, .watermark, .toGif, .replaceAudio]

/-- VIDEO_REQUIRED_OPERATIONS in the source. -/
def VIDEO_REQUIRED_OPERATIONS : List JobType :=
  [.thumbnail, .watermark, .toGif, .clip, .convert, .compress]

/-- Bool test for membership in VIDEO_OPERATIONS. -/
def videoB (t : JobType) : Bool := decide (t ∈ VIDEO_OPERATIONS)

/-- Pipeline.resolveJobInput: for a thumbnail step (the conjunction with
VIDEO_REQUIRED_OPERATIONS membership is taken verbatim from the source,
though thumbnail is always a member), search backward from index-1 to 0
through the — already executed, hence output-resolved — steps array for the
nearest step whose kind is in VIDEO_OPERATIONS and use its output (the
source's non-null assertion prevStep.output! is getD); fall back to the
workflow's initial input.  Every other step uses lastOutput. -/
def resolveJobInput (steps : List JobOptions) (initialInput : String)
    (step : JobOptions) (index : ℕ) (lastOutput : String) : String :=
  if step.type ∈ VIDEO_REQUIRED_OPERATIONS ∧ step.type = JobType.thumbnail then
    match ((steps.take index).reverse).find? (fun s => videoB s.type) with
    | some prev => prev.output.getD ""
    | none => initialInput
  else lastOutput

/-- The output a step ends up with after the loop's
if (!step.output) step.output = generateDefaultOutput(type, i) mutation.
generateDefaultOutput is timestamp-dependent, so it is a parameter gen. -/
def resolvedOutput (gen : JobType → ℕ → String) (s : JobOptions) (i : ℕ) : String :=
  match s.output with
  | some o => if o.isEmpty then gen s.type i else o
  | none => gen s.type i

/-- The per-step wiring loop of Pipeline.executePipeline: done is the
already-executed prefix (mutated in place: inputs resolved, outputs filled),
lastOutput the previous step's output (initially the workflow input).
Returns each remaining step's (resolved input, resolved output) in order. -/
def wireAux (gen : JobType → ℕ → String) (init : String) :
    List JobOptions → List JobOptions → String → List (String × String)
  | _, [], _ => []
  | done, step :: rest, lastOutput =>
    let inp := resolveJobInput (done ++ step :: rest) init step done.length lastOutput
    let newOutput := if falsyS step.output then some (gen step.type done.length)
                     else step.output
    let step' := { step with input := inp, output := newOutput }
    (inp, newOutput.getD "") ::
      wireAux gen init (done ++ [step']) rest (newOutput.getD "")

/-- The input/output wiring executePipeline performs over a whole workflow. -/
def wire (gen : JobType → ℕ → String) (init : String) (steps : List JobOptions) :
    List (String × String) :=
  wireAux gen init [] steps init

/-- Attach indices to a list, starting at i. -/
def withIdx {α : Type} : ℕ → List α → List (ℕ × α)
  | _, [] => []
  | i, a :: as => (i, a) :: withIdx (i + 1) as

/-- Modelled from the claim's words: the output of the nearest preceding
step (searching from i-1 down to 0) whose kind produces playable media,
falling back to the workflow's original input. -/
def specThumbInput (gen : JobType → ℕ → String) (init : String)
    (ss : List JobOptions) (i : ℕ) : String :=
  match ((withIdx 0 (ss.take i)).reverse).find? (fun p => videoB p.2.type) with
  | some p => resolvedOutput gen p.2 p.1
  | none => init

/-- Modelled from the claim's words: the previous step's resolved output,
or the workflow's original input for step 0. -/
def specSeqInput (gen : JobType → ℕ → String) (init : String)
    (ss : List JobOptions) : ℕ → String
  | 0 => init
  | j + 1 =>
    match ss[j]? with
    | some prev => resolvedOutput gen prev j
    | none => init

/-- Modelled from the claim's words: what the input of step i should be —
the backward video search for a snapshot-style (thumbnail) step, the
sequential previous output otherwise. -/
def specInput (gen : JobType → ℕ → String) (init : String)
    (ss : List JobOptions) (i : ℕ) : String :=
  match ss[i]? with
  | none => init
  | some s =>
    if s.type = JobType.thumbnail then specThumbInput gen init ss i
    else specSeqInput gen init ss i

/-- The relation between a mutated, already-executed step record and the
corresponding original step with its index: same kind, and the output field
holds the resolved output. -/
def wiredRel (gen : JobType → ℕ → String) (d : JobOptions) (p : ℕ × JobOptions) : Prop :=
  d.type = p.2.type ∧ d.output = some (resolvedOutput gen p.2 p.1)

/-- withIdx distributes over appending a single element. -/
theorem withIdx_append {α : Type} (a : α) :
    ∀ (l : List α) (i : ℕ), withIdx i (l ++ [a]) = withIdx i l ++ [(i + l.length, a)] := by
  intro l
  induction l with
  | nil => intro i; simp [withIdx]
  | cons x xs ih =>
    intro i
    have h1 : withIdx i ((x :: xs) ++ [a]) = (i, x) :: withIdx (i + 1) (xs ++ [a]) := rfl
    rw [h1, ih (i + 1)]
    have h2 : i + 1 + xs.length = i + (x :: xs).length := by
      simp only [List.length_cons]
      omega
    rw [h2]
    rfl

/-- Forall₂ is preserved by appending related singletons. -/
theorem forall₂_append_singleton {α β : Type} {R : α → β → Prop}
    {l₁ : List α} {l₂ : List β} (h : List.Forall₂ R l₁ l₂)
    {a : α} {b : β} (hab : R a b) : List.Forall₂ R (l₁ ++ [a]) (l₂ ++ [b]) := by
  induction h with
  | nil => simpa using List.Forall₂.cons hab List.Forall₂.nil
  | cons hx ht ih => simpa using List.Forall₂.cons hx ih

/-- find? on two Forall₂-related lists with compatible predicates: either
both fail or both succeed on related elements. -/
theorem find?_rel {α β : Type} {R : α → β → Prop} {p : α → Bool} {q : β → Bool}
    (hpq : ∀ a b, R a b → p a = q b) :
    ∀ {l₁ : List α} {l₂ : List β}, List.Forall₂ R l₁ l₂ →
      (l₁.find? p = none ∧ l₂.find? q = none) ∨
        ∃ a b, l₁.find? p = some a ∧ l₂.find? q = some b ∧ R a b := by
  intro l₁ l₂ h
  induction h with
  | nil => left; simp
  | @cons a b as bs hab htail ih =>
    by_cases hpa : p a
    · right
      refine ⟨a, b, List.find?_cons_of_pos _ hpa, List.find?_cons_of_pos _ ?_, hab⟩
      rw [← hpq a b hab]
      exact hpa
    · have hqb : ¬ q b = true := by
        rw [← hpq a b hab]
        exact hpa
      rcases ih with ⟨h1, h2⟩ | ⟨a', b', h1, h2, h3⟩
      · left
        exact ⟨by rw [List.find?_cons_of_neg _ hpa]; exact h1,
               by rw [List.find?_cons_of_neg _ hqb]; exact h2⟩
      · right
        exact ⟨a', b', by rw [List.find?_cons_of_neg _ hpa]; exact h1,
               by rw [List.find?_cons_of_neg _ hqb]; exact h2, h3⟩

/-- The wiring loop agrees, step by step, with the claim's description of
input resolution (specInput) and output resolution (resolvedOutput). -/
theorem wireAux_spec (gen : JobType → ℕ → String) (init : String)
    (ss : List JobOptions) :
    ∀ (rest done : List JobOptions) (last : String),
      ss.drop done.length = rest →
      List.Forall₂ (wiredRel gen) done (withIdx 0 (ss.take done.length)) →
      last = specSeqInput gen init ss done.length →
      wireAux gen init done rest last =
        (withIdx done.length rest).map
          (fun p => (specInput gen init ss p.1, resolvedOutput gen p.2 p.1)) := by
  intro rest
  induction rest with
  | nil => intro done last _ _ _; simp [wireAux, withIdx]
  | cons step rest' ih =>
    intro done last hdrop hrel hlast
    have hk : ss[done.length]? = some step := by
      have h0 : (ss.drop done.length)[0]? = some step := by rw [hdrop]; simp
      rw [List.getElem?_drop] at h0
      simpa using h0
    have hklt : done.length < ss.length := by
      by_contra hge
      push_neg at hge
      rw [List.getElem?_eq_none hge] at hk
      exact absurd hk (by simp)
    have htakelen : (ss.take done.length).length = done.length := by
      rw [List.length_take]
      omega
    have hout : (if falsyS step.output then some (gen step.type done.length)
        else step.output) = some (resolvedOutput gen step done.length) := by
      cases hso : step.output with
      | none => simp [falsyS, resolvedOutput, hso]
      | some o => by_cases ho : o.isEmpty <;> simp [falsyS, resolvedOutput, hso, ho]
    have htake : (done ++ step :: rest').take done.length = done := List.take_left done _
    have hspec : specInput gen init ss done.length =
        if step.type = JobType.thumbnail then specThumbInput gen init ss done.length
        else specSeqInput gen init ss done.length := by
      unfold specInput
      rw [hk]
    have hinp : resolveJobInput (done ++ step :: rest') init step done.length last =
        specInput gen init ss done.length := by
      rw [hspec]
      unfold resolveJobInput
      by_cases hthumb : step.type = JobType.thumbnail
      · rw [if_pos ⟨by rw [hthumb]; decide, hthumb⟩, if_pos hthumb]
        unfold specThumbInput
        rw [htake]
        have hrev := List.forall₂_reverse_iff.mpr hrel
        rcases find?_rel (p := fun s => videoB s.type)
            (q := fun pr => videoB pr.2.type)
            (fun d pr hdp => by
              show videoB d.type = videoB pr.2.type
              rw [hdp.1]) hrev with
          ⟨h1, h2⟩ | ⟨d, pr, h1, h2, h3⟩
        · rw [h1, h2]
        · rw [h1, h2]
          show d.output.getD "" = resolvedOutput gen pr.2 pr.1
          rw [h3.2]
          rfl
      · rw [if_neg (by intro hc; exact hthumb hc.2), if_neg hthumb]
        exact hlast
    unfold wireAux
    rw [hinp, hout]
    simp only [Option.getD_some, withIdx, List.map_cons]
    congr 1
    · have hlen : (done ++ [{ step with
          input := specInput gen init ss done.length,
          output := some (resolvedOutput gen step done.length) }]).length =
          done.length + 1 := by simp
      have hdrop' : ss.drop (done.length + 1) = rest' := by
        have : (ss.drop done.length).drop 1 = (step :: rest').drop 1 := by rw [hdrop]
        rw [List.drop_drop] at this
        simpa using this
      have hrel' : List.Forall₂ (wiredRel gen)
          (done ++ [{ step with
            input := specInput gen init ss done.length,
            output := some (resolvedOutput gen step done.length) }])
          (withIdx 0 (ss.take (done.length + 1))) := by
        rw [List.take_succ, hk]
        simp only [Option.toList_some]
        rw [withIdx_append, htakelen]
        exact forall₂_append_singleton hrel ⟨rfl, by simp⟩
      have hlast' : resolvedOutput gen step done.length =
          specSeqInput gen init ss (done.length + 1) := by
        show resolvedOutput gen step done.length =
          match ss[done.length]? with
          | some prev => resolvedOutput gen prev done.length
          | none => init
        rw [hk]
      have := ih (done ++ [{ step with
          input := specInput gen init ss done.length,
          output := some (resolvedOutput gen step done.length) }])
        (resolvedOutput gen step done.length)
        (by rw [hlen]; exact hdrop') (by rw [hlen]; exact hrel')
        (by rw [hlen]; exact hlast')
      rw [hlen] at this
      exact this

/-- C5: for every workflow, the wiring executePipeline performs resolves
each step's input exactly as the claim describes: a snapshot-style
(thumbnail) step resolves to the resolved output of the nearest preceding
step (searching i-1 down to 0) whose kind produces playable media
(VIDEO_OPERATIONS), falling back to the workflow's original input; every
other step at i > 0 uses the immediately preceding step's resolved output;
step 0 uses the original input; and each step's output is its given output
or, when falsy, the generated default. -/
theorem pipeline_input_wiring (gen : JobType → ℕ → String) (init : String)
    (ss : List JobOptions) :
    wire gen init ss =
      (withIdx 0 ss).map
        (fun p => (specInput gen init ss p.1, resolvedOutput gen p.2 p.1)) := by
  have h := wireAux_spec gen init ss ss [] init (by simp)
    (by exact List.Forall₂.nil) rfl
  simpa [wire] using h

end MediaX
